import Mathlib

/-!
Verification of the streaming coverage-counting pipeline in
`koverage/scripts/minimapWrapper.py`.

The script reads whitespace-delimited alignment records from a queue,
maintains per-contig hit counts and positional bin histograms
(`worker_count_and_print`), hands one summary per contig to a pool of
statistics workers (`calculate_metrics`), which feed a single output
writer (`print_output`); raw records are optionally archived in
zstd-compressed batches (`worker_paf_writer`).

The embedding below is a direct translation of those functions.
Python `dict`s (whose keys are unique and iterate in insertion order) are
modelled as association lists looked up and updated at the first matching
key; queue contents are modelled as the list of items put on the queue, a
`none` entry standing for the `None` close sentinel; Python exceptions are
modelled by `Except PyErr`.  Machine arithmetic: Python integers are
unbounded (`Int`/`Nat`); `int(a / b)` on integers performs float division
followed by truncation toward zero, which for the magnitudes handled here
(contig coordinates, far below 2^52) is exactly truncating integer
division, modelled by `Int.tdiv`.  Statistics are computed in `ℚ`; the
final 4-significant-digit rendering is a presentation detail shared by
every emitted field and is not re-modelled.
-/

namespace Koverage

/-- The Python exception classes that the script can raise. -/
inductive PyErr where
  | indexError
  | keyError
  | valueError
  | zeroDivisionError
  | attributeError
deriving DecidableEq

/-- Python whitespace (the characters `str.split()` splits on). -/
def isSpace (c : Char) : Bool :=
  c = ' ' || c = '\t' || c = '\n' || c = '\r' || c = '\x0b' || c = '\x0c'

/-- Helper for `pySplit`: scan the characters, accumulating the current field. -/
def splitFieldsAux : List Char → List Char → List String
  | [], acc => if acc = [] then [] else [String.mk acc.reverse]
  | c :: cs, acc =>
    if isSpace c then
      if acc = [] then splitFieldsAux cs []
      else String.mk acc.reverse :: splitFieldsAux cs []
    else splitFieldsAux cs (c :: acc)

/-- Python `line.strip().split()`: split on runs of whitespace, dropping
leading and trailing whitespace (so the `strip` is absorbed). -/
def pySplit (s : String) : List String :=
  splitFieldsAux s.toList []

/-- Value of a nonempty all-digit character list, else `none`. -/
def digitsVal (cs : List Char) : Option Nat :=
  if cs = [] then none
  else cs.foldl (fun acc c =>
    match acc with
    | none => none
    | some n => if c.isDigit then some (n * 10 + (c.toNat - 48)) else none) (some 0)

/-- Python `int(s)` on a string: optional surrounding whitespace, optional
sign, decimal digits; `none` models the `ValueError` raised otherwise. -/
def pyInt? (s : String) : Option Int :=
  let cs := ((s.toList.dropWhile isSpace).reverse.dropWhile isSpace).reverse
  match cs with
  | c :: rest =>
    if c = '-' then (digitsVal rest).map (fun n => -(n : Int))
    else if c = '+' then (digitsVal rest).map (fun n => (n : Int))
    else (digitsVal cs).map (fun n => (n : Int))
  | [] => none

/-- First-match association-list lookup: Python `d[k]` read on a `dict`
(dict keys are unique, so first match is the match). -/
def alookup {β : Type} (k : String) : List (String × β) → Option β
  | [] => none
  | p :: rest => if p.1 = k then some p.2 else alookup k rest

/-- First-match association-list overwrite: Python `d[k] = v` for a key
already present. -/
def aupdate {β : Type} (k : String) (v : β) : List (String × β) → List (String × β)
  | [] => []
  | p :: rest => if p.1 = k then (k, v) :: rest else p :: aupdate k v rest

/-- Python `d[k] = v` on a `dict`: overwrite if present, else append
(insertion order preserved). -/
def dictSet {β : Type} (d : List (String × β)) (k : String) (v : β) : List (String × β) :=
  if (alookup k d).isSome then aupdate k v d else d ++ [(k, v)]

/-- The contig-id → length table (`ctg_lens` in the script).  Built once
from the `.fai` file; a Python `dict`, modelled as an association list in
insertion order with unique keys. -/
abbrev ContigIndex := List (String × Int)

/-- Fold of `contig_lens_from_fai` over the `.fai` lines: lines with
exactly 5 whitespace-separated fields contribute `l[0] → int(l[1])`;
`int(l[1])` on a non-integer raises `ValueError`. -/
def faiFold (d : ContigIndex) : List String → Except PyErr ContigIndex
  | [] => .ok d
  | line :: rest =>
    let l := pySplit line
    if l.length = 5 then
      match pyInt? (l.getD 1 "") with
      | none => .error .valueError
      | some v => faiFold (dictSet d (l.getD 0 "") v) rest
    else faiFold d rest

/-- `contig_lens_from_fai`: collect contig lengths from the reference
`.fai` index file (lines 92-109 of the script). -/
def contig_lens_from_fai (lines : List String) : Except PyErr ContigIndex :=
  faiFold [] lines

/-- Per-contig accumulator: the entry a contig has in `contig_counts` and
`contig_bin_counts` (plus its length from `contig_lengths`, which the
script looks up again when emitting the summary). -/
structure Accum where
  length : Int
  count : Nat
  bins : List Nat
deriving DecidableEq

/-- Joint state of the `contig_counts` and `contig_bin_counts` dicts of
`worker_count_and_print`: both are keyed by exactly the contig ids of
`contig_lengths`, in insertion order. -/
abbrev AggState := List (String × Accum)

/-- Bin histogram allocated for one contig:
`[0] * (int(int(length) / bin_width) + 1)` (line 181).  `int(x / y)` is
truncating division `Int.tdiv`; dividing by zero raises
`ZeroDivisionError`; `[0] * n` for `n ≤ 0` is the empty list. -/
def binsFor (bw : Int) (len : Int) : Except PyErr (List Nat) :=
  if bw = 0 then .error .zeroDivisionError
  else .ok (List.replicate ((Int.tdiv len bw) + 1).toNat 0)

/-- The setup loop of `worker_count_and_print` (lines 179-181): one zeroed
accumulator per `contig_lengths` entry, in order. -/
def initAggState (bw : Int) : ContigIndex → Except PyErr AggState
  | [] => .ok []
  | (k, len) :: rest =>
    match binsFor bw len with
    | .error e => .error e
    | .ok bins =>
      match initAggState bw rest with
      | .error e => .error e
      | .ok st => .ok ((k, ⟨len, 0, bins⟩) :: st)

/-- Effective Python list index: a negative index counts from the end. -/
def pyIdx (len : Nat) (i : Int) : Int :=
  if i < 0 then (len : Int) + i else i

/-- Python `lst[i] += 1` with Python indexing: a negative index counts
from the end; an index out of range (either way) raises `IndexError`,
modelled by `none`. -/
def pyIncr (xs : List Nat) (i : Int) : Option (List Nat) :=
  if 0 ≤ pyIdx xs.length i ∧ pyIdx xs.length i < (xs.length : Int) then
    some (xs.set (pyIdx xs.length i).toNat (xs.getD (pyIdx xs.length i).toNat 0 + 1))
  else none

/-- Body of the read loop of `worker_count_and_print` for one dequeued
string (lines 187-193): split the line, `contig_counts[l[5]] += 1`, then
`contig_bin_counts[l[5]][int(int(l[7]) / bin_width)] += 1`, with each
Python exception surfaced in evaluation order. -/
def processRecord (bw : Int) (st : AggState) (line : String) : Except PyErr AggState :=
  match (pySplit line).get? 5 with
  | none => .error .indexError
  | some tid =>
    match alookup tid st with
    | none => .error .keyError
    | some a =>
      match (pySplit line).get? 7 with
      | none => .error .indexError
      | some s7 =>
        match pyInt? s7 with
        | none => .error .valueError
        | some pos =>
          if bw = 0 then .error .zeroDivisionError
          else
            match pyIncr a.bins (Int.tdiv pos bw) with
            | none => .error .indexError
            | some bins2 =>
              .ok (aupdate tid ⟨a.length, a.count + 1, bins2⟩
                    (aupdate tid { a with count := a.count + 1 } st))

/-- Outcome of one iteration of the read loop: `broke` when
`line.strip()` raised `AttributeError` (the item was not a string, e.g.
the `None` sentinel) and the loop broke; `stepped` on a processed record;
`raised` when processing raised an uncaught exception. -/
inductive StepOut where
  | broke
  | stepped (st : AggState) (t : Nat)
  | raised (e : PyErr)
deriving DecidableEq

/-- One iteration of the read loop of `worker_count_and_print`
(lines 183-194) on the dequeued item, current dicts and `total_count`. -/
def loopStep (bw : Int) (item : Option String) (st : AggState) (t : Nat) : StepOut :=
  match item with
  | none => .broke
  | some line =>
    match processRecord bw st line with
    | .error e => .raised e
    | .ok st2 => .stepped st2 (t + 1)

/-- Result of running the read loop over the queued items: `done` when it
broke out on a sentinel, `blocked` when the queue was exhausted without a
sentinel (the real `Queue.get()` would block forever), `errored` when an
uncaught exception killed the worker. -/
inductive LoopOut where
  | done (st : AggState) (t : Nat)
  | blocked (st : AggState) (t : Nat)
  | errored (e : PyErr)
deriving DecidableEq

/-- True exactly for the `errored` outcome. -/
def LoopOut.isErrored : LoopOut → Bool
  | .errored _ => true
  | _ => false

/-- True exactly for the `broke` outcome. -/
def StepOut.isBroke : StepOut → Bool
  | .broke => true
  | _ => false

/-- True exactly for the `raised` outcome. -/
def StepOut.isRaised : StepOut → Bool
  | .raised _ => true
  | _ => false

/-- The read loop of `worker_count_and_print` (lines 183-194), iterated
over the queue contents. -/
def countLoop (bw : Int) : List (Option String) → AggState → Nat → LoopOut
  | [], st, t => .blocked st t
  | item :: rest, st, t =>
    match loopStep bw item st t with
    | .broke => .done st t
    | .raised e => .errored e
    | .stepped st2 t2 => countLoop bw rest st2 t2

/-- The `ContigSummary` message `[c, contig_lengths[c], contig_counts[c],
contig_bin_counts[c]]` put on `bin_queue` (line 197). -/
structure Summary where
  contig_id : String
  length : Int
  total_count : Nat
  bins : List Nat
deriving DecidableEq

/-- The summaries emitted at end-of-stream, one per contig in dict order
(lines 196-197). -/
def summariesOf (st : AggState) : List Summary :=
  st.map (fun p => ⟨p.1, p.2.length, p.2.count, p.2.bins⟩)

/-- Sum of the per-contig counts held in the state. -/
def sumCounts (st : AggState) : Nat :=
  (st.map (fun p => p.2.count)).sum

/-- Observable result of `worker_count_and_print`: on success, the full
contents put on `bin_queue` (summaries then the close sentinels) and the
`total_count` written to the library-size file; `hang` when the read loop
blocked forever; `crashed` when an uncaught exception killed the worker
(nothing is put and nothing is written). -/
inductive WorkerOut where
  | ok (binQueue : List (Option Summary)) (librarySize : Nat)
  | hang
  | crashed (e : PyErr)
deriving DecidableEq

/-- `worker_count_and_print` (lines 160-204): build the accumulators,
run the read loop, then put one summary per contig followed by exactly
`threads` close sentinels on `bin_queue`, and write `total_count` to the
library-size file. -/
def worker_count_and_print (bw : Int) (threads : Nat) (index : ContigIndex)
    (items : List (Option String)) : WorkerOut :=
  match initAggState bw index with
  | .error e => .crashed e
  | .ok st0 =>
    match countLoop bw items st0 0 with
    | .errored e => .crashed e
    | .blocked _ _ => .hang
    | .done st t => .ok ((summariesOf st).map some ++ List.replicate threads none) t

/-- One formatted output line of `calculate_metrics` (lines 147-155),
with the statistics kept as exact rationals. -/
structure OutputLine where
  contig_id : String
  length : Int
  total_count : Nat
  mean : ℚ
  median : ℚ
  hitrate : ℚ
  variance : ℚ
deriving DecidableEq

/-- Insert into a sorted list of rationals. -/
def insertQ (x : ℚ) : List ℚ → List ℚ
  | [] => [x]
  | y :: ys => if x ≤ y then x :: y :: ys else y :: insertQ x ys

/-- Insertion sort on rationals (ascending). -/
def sortQ : List ℚ → List ℚ
  | [] => []
  | x :: xs => insertQ x (sortQ xs)

/-- `np.mean`: arithmetic mean.  (`np.mean([])` is NaN in Python; on the
paths where the result is observed the list is nonempty.) -/
def npMean (xs : List ℚ) : ℚ :=
  xs.sum / (xs.length : ℚ)

/-- `np.median`: middle element of the sorted list, or the mean of the two
middle elements for even length. -/
def npMedian (xs : List ℚ) : ℚ :=
  let s := sortQ xs
  let n := xs.length
  if n = 0 then 0
  else if n % 2 = 1 then s.getD (n / 2) 0
  else (s.getD (n / 2 - 1) 0 + s.getD (n / 2) 0) / 2

/-- The hitrate expression of line 141:
`(len(contig[3]) - contig[3].count(0)) / len(contig[3])`. -/
def ctg_hitrate (bins : List Nat) : ℚ :=
  ((bins.length : ℚ) - (bins.count 0 : ℚ)) / (bins.length : ℚ)

/-- The per-contig normalization of line 142:
`contig[3] = [x / kwargs["bin_width"] for x in contig[3]]`. -/
def normalizedBins (bw : Int) (bins : List Nat) : List ℚ :=
  bins.map (fun x => (x : ℚ) / (bw : ℚ))

/-- Modelled from the spec (§4.4): the intended variance — the population
variance of the normalized bins, i.e. numpy's `np.var`.  The script
instead calls `np.variance`, a name that does not exist in numpy, so this
definition exists only for comparison with the code's behaviour. -/
def population_variance (xs : List ℚ) : ℚ :=
  (xs.map (fun x => (x - npMean xs) * (x - npMean xs))).sum / (xs.length : ℚ)

/-- The body of `calculate_metrics` for one dequeued `ContigSummary`
(lines 139-155), in Python evaluation order: `np.mean` and `np.median`
(no exception), the hitrate expression (`ZeroDivisionError` on empty
bins), the normalization (`ZeroDivisionError` when `bin_width` is 0), and
then the variance branch: for more than one bin the script calls
`np.variance`, which does not exist in numpy, raising `AttributeError`;
for a single bin it formats the constant `0`. -/
def calculate_metrics_row (bw : Int) (s : Summary) : Except PyErr OutputLine :=
  if s.bins.length = 0 then .error .zeroDivisionError
  else if bw = 0 then .error .zeroDivisionError
  else if 1 < s.bins.length then .error .attributeError
  else .ok ⟨s.contig_id, s.length, s.total_count,
            npMean (s.bins.map (fun x => (x : ℚ))),
            npMedian (s.bins.map (fun x => (x : ℚ))),
            ctg_hitrate s.bins, 0⟩

/-- One `calculate_metrics` worker (lines 127-157), as the sequence of
items it puts on `output_queue`: one line per summary until its close
sentinel, then its own `None` (line 157).  An uncaught exception kills
the thread, so nothing further — in particular no sentinel — is put. -/
def calculate_metrics (bw : Int) : List (Option Summary) → List (Option OutputLine)
  | [] => []
  | none :: _ => [none]
  | some s :: rest =>
    match calculate_metrics_row bw s with
    | .error _ => []
    | .ok r => some r :: calculate_metrics bw rest

/-- `print_output` (lines 112-124): write each dequeued line until the
first `None`, then stop.  The result is the list of lines written to the
counts file. -/
def print_output : List (Option OutputLine) → List OutputLine
  | [] => []
  | none :: _ => []
  | some r :: rest => r :: print_output rest

/-- `q` is an interleaving of `xs` and `ys` (order preserved within
each): the possible contents of a FIFO queue fed by two producers. -/
def interleaves {α : Type} [DecidableEq α] : List α → List α → List α → Bool
  | [], [], [] => true
  | _, _, [] => false
  | as, bs, c :: cs =>
    (match as with
      | a :: as2 => if a = c then interleaves as2 bs cs else false
      | [] => false) ||
    (match bs with
      | b :: bs2 => if b = c then interleaves as bs2 cs else false
      | [] => false)

/-- Number of `None` sentinels contained in a queue trace. -/
def countNone {α : Type} : List (Option α) → Nat
  | [] => 0
  | none :: rest => countNone rest + 1
  | some _ :: rest => countNone rest

/-- One zstd frame: the result of a single one-shot
`ZstdCompressor.compress(data)` call, a self-contained frame holding
exactly `data`. -/
structure ZFrame where
  payload : String
deriving DecidableEq

/-- Python `b"".join(lines)`. -/
def joinAll (lines : List String) : String :=
  lines.foldl (fun a b => a ++ b) ""

/-- `cctx.compress(...)`: one-shot compression of `data` into one
independent, self-contained zstd frame (no state carried between calls). -/
def zstd_compress_frame (data : String) : ZFrame :=
  ⟨data⟩

/-- The read loop of `worker_paf_writer` (lines 74-87): buffer lines; once
the buffer reaches `chunk_size`, compress the joined buffer as one frame
and append it to the file; on the `None` sentinel, flush a final partial
batch and close.  `none` models the queue running dry without a sentinel
(the thread would block forever and the file is never closed). -/
def pafLoop (chunk_size : Nat) : List (Option String) → List String → List ZFrame →
    Option (List ZFrame)
  | [], _, _ => none
  | none :: _, buf, out =>
    if buf = [] then some out
    else some (out ++ [zstd_compress_frame (joinAll buf)])
  | some line :: rest, buf, out =>
    if chunk_size ≤ (buf ++ [line]).length then
      pafLoop chunk_size rest [] (out ++ [zstd_compress_frame (joinAll (buf ++ [line]))])
    else pafLoop chunk_size rest (buf ++ [line]) out

/-- `worker_paf_writer` (lines 61-89): the sequence of compressed frames
written to the `.paf.zst` file, with the default `chunk_size=100` used by
`start_workers`. -/
def worker_paf_writer (paf_queue : List (Option String)) (chunk_size : Nat := 100) :
    Option (List ZFrame) :=
  pafLoop chunk_size paf_queue [] []

/-- Modelled from the spec (§4.6): an archive produced by a streaming
codec that carries compression state across batches, i.e. one continuous
compressed stream — a single frame covering the whole record sequence
(empty input producing no frame). -/
def streaming_archive (lines : List String) : List ZFrame :=
  if lines = [] then [] else [zstd_compress_frame (joinAll lines)]

/-- Split a list into consecutive chunks of `n` (the last one possibly
shorter); `n = 0` yields no chunks. -/
def chunksOf {α : Type} (n : Nat) (l : List α) : List (List α) :=
  match l with
  | [] => []
  | x :: xs =>
    if _h : n = 0 then []
    else (x :: xs).take n :: chunksOf n ((x :: xs).drop n)
termination_by l.length
decreasing_by
  simp only [List.length_drop, List.length_cons]
  omega

/-! ### Helper lemmas about the association-list dictionaries -/

/-- A successful lookup exhibits a member of the association list. -/
theorem alookup_mem {β : Type} (k : String) (a : β) :
    ∀ st : List (String × β), alookup k st = some a → (k, a) ∈ st := by
  intro st
  induction st with
  | nil => intro h; simp [alookup] at h
  | cons p rest ih =>
    obtain ⟨k', b⟩ := p
    intro h
    by_cases hk : k' = k
    · subst hk
      simp [alookup] at h
      simp [h]
    · simp [alookup, hk] at h
      exact List.mem_cons_of_mem _ (ih h)

/-- Members of an updated dictionary are the new binding or old members. -/
theorem mem_aupdate {β : Type} (k : String) (v : β) (p : String × β) :
    ∀ st : List (String × β), p ∈ aupdate k v st → p = (k, v) ∨ p ∈ st := by
  intro st
  induction st with
  | nil => intro h; simp [aupdate] at h
  | cons q rest ih =>
    intro h
    by_cases hk : q.1 = k
    · simp [aupdate, hk] at h
      rcases h with h | h
      · exact Or.inl h
      · exact Or.inr (List.mem_cons_of_mem _ h)
    · simp [aupdate, hk] at h
      rcases h with h | h
      · exact Or.inr (by simp [h])
      · rcases ih h with h2 | h2
        · exact Or.inl h2
        · exact Or.inr (List.mem_cons_of_mem _ h2)

/-- Two successive writes to the same key collapse to the second one. -/
theorem aupdate_aupdate {β : Type} (k : String) (v1 v2 : β) :
    ∀ st : List (String × β), aupdate k v2 (aupdate k v1 st) = aupdate k v2 st := by
  intro st
  induction st with
  | nil => rfl
  | cons q rest ih =>
    by_cases hk : q.1 = k
    · simp [aupdate, hk]
    · simp [aupdate, hk, ih]

/-- Incrementing the count of a present key increments the count total. -/
theorem sumCounts_aupdate_succ (k : String) (a a' : Accum) (hc : a'.count = a.count + 1) :
    ∀ st : AggState, alookup k st = some a →
    sumCounts (aupdate k a' st) = sumCounts st + 1 := by
  intro st
  induction st with
  | nil => intro h; simp [alookup] at h
  | cons q rest ih =>
    intro h
    by_cases hk : q.1 = k
    · simp [alookup, hk] at h
      simp [aupdate, hk, sumCounts, hc, ← h]
      omega
    · simp [alookup, hk] at h
      simp [aupdate, hk, sumCounts] at ih ⊢
      rw [ih h]
      omega

/-! ### Helper lemmas about bin increments -/

/-- Bumping one in-range cell adds one to the histogram total. -/
theorem sum_set_succ : ∀ (xs : List Nat) (j : Nat), j < xs.length →
    (xs.set j (xs.getD j 0 + 1)).sum = xs.sum + 1 := by
  intro xs
  induction xs with
  | nil => intro j h; simp at h
  | cons x rest ih =>
    intro j h
    cases j with
    | zero => simp [List.getD_cons_zero]; omega
    | succ j =>
      have := ih j (by simpa using h)
      simp only [List.set, List.getD_cons_succ, List.sum_cons]
      omega

/-- A successful `pyIncr` adds exactly one to the histogram total. -/
theorem pyIncr_sum (xs : List Nat) (i : Int) (ys : List Nat)
    (h : pyIncr xs i = some ys) : ys.sum = xs.sum + 1 := by
  unfold pyIncr at h
  split at h
  · next hc =>
    injection h with h2
    have hj : (pyIdx xs.length i).toNat < xs.length := by omega
    rw [← h2]
    exact sum_set_succ xs _ hj
  · exact Option.noConfusion h

/-! ### Characterization of one processed record -/

/-- A successfully processed record bumps exactly one contig's count and
one of that contig's bins. -/
theorem processRecord_ok_cases (bw : Int) (st : AggState) (line : String) (st2 : AggState)
    (h : processRecord bw st line = .ok st2) :
    ∃ tid a i bins2, alookup tid st = some a ∧
      pyIncr a.bins i = some bins2 ∧
      st2 = aupdate tid ⟨a.length, a.count + 1, bins2⟩ st := by
  unfold processRecord at h
  split at h
  · exact Except.noConfusion h
  next tid hget5 =>
    split at h
    · exact Except.noConfusion h
    next a hlook =>
      split at h
      · exact Except.noConfusion h
      next s7 hget7 =>
        split at h
        · exact Except.noConfusion h
        next pos hint =>
          split at h
          · exact Except.noConfusion h
          · split at h
            · exact Except.noConfusion h
            next bins2 hincr =>
              injection h with h2
              exact ⟨tid, a, _, bins2, hlook, hincr, by rw [← h2, aupdate_aupdate]⟩

/-- Processing a record preserves the per-contig invariant
`Σ bins = count`. -/
theorem processRecord_ok_inv (bw : Int) (st : AggState) (line : String) (st2 : AggState)
    (hinv : ∀ p ∈ st, p.2.bins.sum = p.2.count)
    (h : processRecord bw st line = .ok st2) :
    ∀ p ∈ st2, p.2.bins.sum = p.2.count := by
  obtain ⟨tid, a, i, bins2, hl, hi, rfl⟩ := processRecord_ok_cases bw st line st2 h
  intro p hp
  rcases mem_aupdate _ _ _ _ hp with rfl | hp
  · have h1 := hinv (tid, a) (alookup_mem _ _ _ hl)
    have h2 := pyIncr_sum _ _ _ hi
    simp at h1 ⊢
    omega
  · exact hinv p hp

/-- Processing a record adds one to the count total. -/
theorem processRecord_ok_sumCounts (bw : Int) (st : AggState) (line : String) (st2 : AggState)
    (h : processRecord bw st line = .ok st2) :
    sumCounts st2 = sumCounts st + 1 := by
  obtain ⟨tid, a, i, bins2, hl, hi, rfl⟩ := processRecord_ok_cases bw st line st2 h
  exact sumCounts_aupdate_succ tid a _ rfl st hl

/-- A `stepped` outcome comes from a successfully processed record. -/
theorem loopStep_stepped (bw : Int) (item : Option String) (st : AggState) (t : Nat)
    (st2 : AggState) (t2 : Nat) (h : loopStep bw item st t = .stepped st2 t2) :
    ∃ line, item = some line ∧ processRecord bw st line = .ok st2 ∧ t2 = t + 1 := by
  unfold loopStep at h
  split at h
  · exact StepOut.noConfusion h
  next line =>
    split at h
    · exact StepOut.noConfusion h
    next st3 hpr =>
      injection h with h1 h2
      exact ⟨line, rfl, h1 ▸ hpr, h2.symm⟩

/-! ### Loop invariants -/

/-- The invariant `Σ bins = count` holds at every observation point of the
read loop (the state after any number of processed records). -/
theorem countLoop_blocked_inv (bw : Int) :
    ∀ (items : List (Option String)) (st : AggState) (t : Nat) (st' : AggState) (t' : Nat),
    (∀ p ∈ st, p.2.bins.sum = p.2.count) →
    countLoop bw items st t = .blocked st' t' →
    ∀ p ∈ st', p.2.bins.sum = p.2.count := by
  intro items
  induction items with
  | nil =>
    intro st t st' t' hinv h
    unfold countLoop at h
    injection h with h1 h2
    exact h1 ▸ hinv
  | cons item rest ih =>
    intro st t st' t' hinv h
    unfold countLoop at h
    split at h
    · exact LoopOut.noConfusion h
    · exact LoopOut.noConfusion h
    next st2 t2 hstep =>
      obtain ⟨line, _, hpr, _⟩ := loopStep_stepped bw item st t st2 t2 hstep
      exact ih st2 t2 st' t' (processRecord_ok_inv bw st line st2 hinv hpr) h

/-- Along the read loop, the count total minus the records processed is
constant; at `done` the totals balance. -/
theorem countLoop_done_sum (bw : Int) :
    ∀ (items : List (Option String)) (st : AggState) (t : Nat) (st' : AggState) (t' : Nat),
    countLoop bw items st t = .done st' t' →
    sumCounts st' + t = sumCounts st + t' := by
  intro items
  induction items with
  | nil =>
    intro st t st' t' h
    unfold countLoop at h
    exact LoopOut.noConfusion h
  | cons item rest ih =>
    intro st t st' t' h
    unfold countLoop at h
    split at h
    · next hstep =>
      injection h with h1 h2
      subst h1
      subst h2
      omega
    · exact LoopOut.noConfusion h
    next st2 t2 hstep =>
      obtain ⟨line, _, hpr, ht2⟩ := loopStep_stepped bw item st t st2 t2 hstep
      have hsum := processRecord_ok_sumCounts bw st line st2 hpr
      have := ih st2 t2 st' t' h
      omega

/-! ### Properties of the initial accumulator state -/

/-- Every freshly built accumulator has count 0 and an all-zero histogram. -/
theorem initAggState_mem (bw : Int) :
    ∀ (index : ContigIndex) (st0 : AggState),
    initAggState bw index = .ok st0 →
    ∀ p ∈ st0, p.2.count = 0 ∧ p.2.bins.sum = 0 := by
  intro index
  induction index with
  | nil =>
    intro st0 h p hp
    unfold initAggState at h
    injection h with h1
    subst h1
    simp at hp
  | cons kl rest ih =>
    obtain ⟨k, len⟩ := kl
    intro st0 h p hp
    unfold initAggState at h
    split at h
    · exact Except.noConfusion h
    next bins hbins =>
      split at h
      · exact Except.noConfusion h
      next st hst =>
        injection h with h1
        subst h1
        unfold binsFor at hbins
        split at hbins
        · exact Except.noConfusion hbins
        · injection hbins with h2
          rcases List.mem_cons.mp hp with rfl | hp2
          · refine ⟨rfl, ?_⟩
            simp [← h2, List.sum_replicate]
          · exact ih st hst p hp2

/-- The count total of the initial state is zero. -/
theorem initAggState_sumCounts (bw : Int) (index : ContigIndex) (st0 : AggState)
    (h : initAggState bw index = .ok st0) : sumCounts st0 = 0 := by
  unfold sumCounts
  apply List.sum_eq_zero
  intro x hx
  rcases List.mem_map.mp hx with ⟨p, hp, rfl⟩
  exact (initAggState_mem bw index st0 h p hp).1

/-- Every accumulator of the initial state comes from an index entry and
has `int(int(length) / bin_width) + 1` zeroed bins. -/
theorem initAggState_alookup (bw : Int) :
    ∀ (index : ContigIndex) (st0 : AggState) (k : String) (a : Accum),
    initAggState bw index = .ok st0 → alookup k st0 = some a →
    ∃ len, alookup k index = some len ∧
      a = ⟨len, 0, List.replicate ((Int.tdiv len bw) + 1).toNat 0⟩ := by
  intro index
  induction index with
  | nil =>
    intro st0 k a h hk
    unfold initAggState at h
    injection h with h1
    subst h1
    simp [alookup] at hk
  | cons kl rest ih =>
    obtain ⟨k', len⟩ := kl
    intro st0 k a h hk
    unfold initAggState at h
    split at h
    · exact Except.noConfusion h
    next bins hbins =>
      split at h
      · exact Except.noConfusion h
      next st hst =>
        injection h with h1
        subst h1
        unfold binsFor at hbins
        split at hbins
        · exact Except.noConfusion hbins
        · injection hbins with h2
          by_cases hkk : k' = k
          · subst hkk
            simp [alookup] at hk
            exact ⟨len, by simp [alookup], by rw [← hk, ← h2]⟩
          · simp [alookup, hkk] at hk
            obtain ⟨len2, hl2, ha2⟩ := ih st k a hst hk
            exact ⟨len2, by simp [alookup, hkk, hl2], ha2⟩

/-! ### Malformed records -/

/-- `l.get? n` is `none` past the end of the list. -/
theorem get?_none_of_le {α : Type} : ∀ (l : List α) (n : Nat), l.length ≤ n → l.get? n = none := by
  intro l
  induction l with
  | nil => intro n _; rfl
  | cons x xs ih =>
    intro n h
    cases n with
    | zero => simp at h
    | succ n => exact ih n (by simpa using h)

/-- A record with fewer than 8 fields, an unknown target id, or a
non-integer target start makes `processRecord` raise. -/
theorem processRecord_malformed (bw : Int) (st : AggState) (line : String)
    (h : (pySplit line).length < 8 ∨
         (∃ tid, (pySplit line).get? 5 = some tid ∧ alookup tid st = none) ∨
         (∃ s7, (pySplit line).get? 7 = some s7 ∧ pyInt? s7 = none)) :
    ∃ e, processRecord bw st line = .error e := by
  unfold processRecord
  rcases h5 : (pySplit line).get? 5 with _ | tid
  · exact ⟨.indexError, by simp [h5]⟩
  · rcases hl : alookup tid st with _ | a
    · exact ⟨.keyError, by simp [h5, hl]⟩
    · rcases h7 : (pySplit line).get? 7 with _ | s7
      · exact ⟨.indexError, by simp [h5, hl, h7]⟩
      · rcases hint : pyInt? s7 with _ | pos
        · exact ⟨.valueError, by simp [h5, hl, h7, hint]⟩
        · exfalso
          rcases h with hlen | ⟨tid2, ht2, hlook2⟩ | ⟨s72, hs72, hint2⟩
          · rw [get?_none_of_le (pySplit line) 7 (by omega)] at h7
            exact Option.noConfusion h7
          · rw [h5] at ht2
            injection ht2 with ht2
            subst ht2
            rw [hl] at hlook2
            exact Option.noConfusion hlook2
          · rw [h7] at hs72
            injection hs72 with hs72
            subst hs72
            rw [hint] at hint2
            exact Option.noConfusion hint2

/-! ### Queue bookkeeping -/

/-- Stripping the payloads from a summary queue of payloads followed by
sentinels recovers exactly the payloads. -/
theorem filterMap_id_sentinels {α : Type} (xs : List α) (n : Nat) :
    ((xs.map some) ++ List.replicate n none).filterMap id = xs := by
  induction xs with
  | nil =>
    simp only [List.map_nil, List.nil_append]
    induction n with
    | zero => rfl
    | succ n ih => simp [List.replicate_succ, ih]
  | cons x xs ih => simp [ih]

/-! ### Batching lemmas for the archive writer -/

/-- `chunksOf` of the empty list. -/
theorem chunksOf_nil {α : Type} (n : Nat) : chunksOf n ([] : List α) = [] := by
  unfold chunksOf
  rfl

/-- A nonempty list of at most `n` elements is one single chunk. -/
theorem chunksOf_small {α : Type} (n : Nat) (a : List α) (hn : 0 < n) (h0 : a ≠ [])
    (h : a.length ≤ n) : chunksOf n a = [a] := by
  obtain ⟨x, xs, rfl⟩ := List.exists_cons_of_ne_nil h0
  unfold chunksOf
  rw [dif_neg (Nat.pos_iff_ne_zero.mp hn)]
  rw [List.take_of_length_le h, List.drop_eq_nil_of_le h, chunksOf_nil]

/-- Splitting off one full chunk at the front. -/
theorem chunksOf_append {α : Type} (n : Nat) (a b : List α) (hn : 0 < n)
    (ha : a.length = n) : chunksOf n (a ++ b) = a :: chunksOf n b := by
  have h0 : a ≠ [] := by
    intro e
    subst e
    simp at ha
    omega
  obtain ⟨x, xs, rfl⟩ := List.exists_cons_of_ne_nil h0
  simp only [List.cons_append]
  unfold chunksOf
  rw [dif_neg (Nat.pos_iff_ne_zero.mp hn)]
  rw [← List.cons_append, ← ha, List.take_left, List.drop_left]
  congr 1
  conv_lhs => unfold chunksOf

/-- The archive loop writes exactly one frame per `n`-record batch of the
remaining records (given the current partial buffer), flushing the final
partial batch on the sentinel. -/
theorem pafLoop_chunks (n : Nat) (hn : 0 < n) :
    ∀ (lines buf : List String) (out : List ZFrame), buf.length < n →
    pafLoop n (lines.map some ++ [none]) buf out =
      some (out ++ (chunksOf n (buf ++ lines)).map (fun b => zstd_compress_frame (joinAll b))) := by
  intro lines
  induction lines with
  | nil =>
    intro buf out hb
    simp only [List.map_nil, List.nil_append, List.append_nil]
    unfold pafLoop
    by_cases h0 : buf = []
    · subst h0
      simp [chunksOf_nil]
    · rw [if_neg h0, chunksOf_small n buf hn h0 (le_of_lt hb)]
      simp
  | cons l ls ih =>
    intro buf out hb
    simp only [List.map_cons, List.cons_append]
    unfold pafLoop
    by_cases hfull : n ≤ (buf ++ [l]).length
    · rw [if_pos hfull]
      have hlen : (buf ++ [l]).length = n := by
        simp at hfull ⊢
        omega
      rw [ih [] (out ++ [zstd_compress_frame (joinAll (buf ++ [l]))]) (by simpa using hn)]
      have hsplit : buf ++ l :: ls = (buf ++ [l]) ++ ls := by simp
      rw [hsplit, chunksOf_append n _ _ hn hlen]
      simp
    · rw [if_neg hfull]
      rw [ih (buf ++ [l]) out (by simp at hfull ⊢; omega)]
      have hsplit : buf ++ l :: ls = (buf ++ [l]) ++ ls := by simp
      rw [hsplit]

/-- Auxiliary count: the positive bins and the zero bins partition the
histogram. -/
theorem countP_pos_add_count_zero (bins : List Nat) :
    bins.countP (fun x => decide (0 < x)) + bins.count 0 = bins.length := by
  induction bins with
  | nil => rfl
  | cons x xs ih =>
    cases x with
    | zero =>
      simp [List.countP_cons, List.count_cons]
      omega
    | succ m =>
      simp [List.countP_cons, List.count_cons]
      omega

/-! ### The claims -/

set_option maxRecDepth 40000

/-- C1: the variance field is broken for every contig with more than one
bin: the script calls `np.variance`, a function that does not exist in
numpy (the intended one is `np.var`), so the statistics worker raises
`AttributeError` instead of emitting the population variance of the
normalized bins (for bins `[1, 2]` and bin width 100 the intended value
is `1/40000`); only the single-bin branch behaves as specified, emitting
exactly 0. -/
theorem variance_np_attribute_error :
    calculate_metrics_row 100 ⟨"chr1", 1000, 3, [1, 2]⟩ = .error .attributeError ∧
    calculate_metrics_row 100 ⟨"chr1", 1000, 3, [3]⟩ = .ok ⟨"chr1", 1000, 3, 3, 3, 1, 0⟩ ∧
    population_variance (normalizedBins 100 [1, 2]) = 1 / 40000 := by
  refine ⟨rfl, ?_, ?_⟩
  · simp [calculate_metrics_row, npMean, npMedian, sortQ, insertQ, ctg_hitrate]
  · simp [population_variance, normalizedBins, npMean]
    norm_num

/-- C2: the aggregator does enqueue exactly `threads` sentinels for the
worker pool (first conjunct: 2 sentinels for 2 workers), but every pool
worker then forwards its own `None` to the single output writer, so the
writer's queue receives `threads` closing signals, not one; on the legal
FIFO interleaving in which worker 1 finishes before worker 2 enqueues its
line, the writer stops at worker 1's sentinel and the line of contig
`c2` is never written. -/
theorem sentinel_duplication_loses_lines :
    worker_count_and_print 100 2 [("c1", 100)] [none]
      = .ok [some ⟨"c1", 100, 0, [0, 0]⟩, none, none] 0 ∧
    countNone [some (⟨"c1", 100, 0, [0, 0]⟩ : Summary), none, none] = 2 ∧
    calculate_metrics 100 [some ⟨"c1", 100, 2, [2]⟩, none]
      = [some ⟨"c1", 100, 2, 2, 2, 1, 0⟩, none] ∧
    calculate_metrics 100 [some ⟨"c2", 100, 1, [1]⟩, none]
      = [some ⟨"c2", 100, 1, 1, 1, 1, 0⟩, none] ∧
    interleaves (calculate_metrics 100 [some ⟨"c1", 100, 2, [2]⟩, none])
      (calculate_metrics 100 [some ⟨"c2", 100, 1, [1]⟩, none])
      [some ⟨"c1", 100, 2, 2, 2, 1, 0⟩, none, some ⟨"c2", 100, 1, 1, 1, 1, 0⟩, none]
      = true ∧
    countNone [some (⟨"c1", 100, 2, 2, 2, 1, 0⟩ : OutputLine), none,
      some ⟨"c2", 100, 1, 1, 1, 1, 0⟩, none] = 2 ∧
    print_output [some ⟨"c1", 100, 2, 2, 2, 1, 0⟩, none,
      some ⟨"c2", 100, 1, 1, 1, 1, 0⟩, none] = [⟨"c1", 100, 2, 2, 2, 1, 0⟩] ∧
    (⟨"c2", 100, 1, 1, 1, 1, 0⟩ : OutputLine) ∉
      print_output [some ⟨"c1", 100, 2, 2, 2, 1, 0⟩, none,
        some ⟨"c2", 100, 1, 1, 1, 1, 0⟩, none] := by
  have hcm1 : calculate_metrics 100 [some ⟨"c1", 100, 2, [2]⟩, none]
      = [some ⟨"c1", 100, 2, 2, 2, 1, 0⟩, none] := by
    simp [calculate_metrics, calculate_metrics_row, npMean, npMedian, sortQ, insertQ,
      ctg_hitrate]
  have hcm2 : calculate_metrics 100 [some ⟨"c2", 100, 1, [1]⟩, none]
      = [some ⟨"c2", 100, 1, 1, 1, 1, 0⟩, none] := by
    simp [calculate_metrics, calculate_metrics_row, npMean, npMedian, sortQ, insertQ,
      ctg_hitrate]
  refine ⟨rfl, rfl, hcm1, hcm2, ?_, rfl, ?_, ?_⟩
  · rw [hcm1, hcm2]
    simp [interleaves]
  · simp [print_output]
  · simp [print_output]

/-- C3: a record with fewer than 8 fields, an unknown target id, or a
non-integer target start is rejected: the read loop raises an uncaught
exception (the model's `ParseError` class `PyErr`), processing nothing
further — in particular no subsequent records, no summaries and no
library-size write — rather than silently skipping the record. -/
theorem aggregator_rejects_malformed (bw : Int) (st : AggState) (t : Nat)
    (line : String) (rest : List (Option String))
    (h : (pySplit line).length < 8 ∨
         (∃ tid, (pySplit line).get? 5 = some tid ∧ alookup tid st = none) ∨
         (∃ s7, (pySplit line).get? 7 = some s7 ∧ pyInt? s7 = none)) :
    (countLoop bw (some line :: rest) st t).isErrored = true := by
  obtain ⟨e, he⟩ := processRecord_malformed bw st line h
  unfold countLoop loopStep
  simp [he, LoopOut.isErrored]

/-- C3 witness: a 2-field record makes the loop error out at once. -/
theorem aggregator_rejects_malformed_witness :
    (countLoop 100 [some "readA 0"] [("c1", ⟨100, 0, [0, 0]⟩)] 0).isErrored = true :=
  aggregator_rejects_malformed 100 [("c1", ⟨100, 0, [0, 0]⟩)] 0 "readA 0" []
    (Or.inl (by decide))

/-- C4: at every observation point of the aggregation loop (the state
reached after processing any prefix of records from the freshly built
accumulators), every contig's bin histogram sums to that contig's
count. -/
theorem bins_sum_eq_count (bw : Int) (index : ContigIndex) (items : List (Option String))
    (st0 st : AggState) (t : Nat)
    (h0 : initAggState bw index = .ok st0)
    (h : countLoop bw items st0 0 = .blocked st t) :
    ∀ p ∈ st, p.2.bins.sum = p.2.count := by
  have hinv : ∀ p ∈ st0, p.2.bins.sum = p.2.count := by
    intro p hp
    obtain ⟨hc, hb⟩ := initAggState_mem bw index st0 h0 p hp
    rw [hb, hc]
  exact countLoop_blocked_inv bw items st0 0 st t hinv h

/-- C4 witness: after one record at position 110 the invariant holds. -/
theorem bins_sum_eq_count_witness :
    (Accum.mk 250 1 [0, 1, 0]).bins.sum = (Accum.mk 250 1 [0, 1, 0]).count :=
  bins_sum_eq_count 100 [("c1", 250)] [some "q 0 0 0 0 c1 0 110"]
    [("c1", ⟨250, 0, [0, 0, 0]⟩)] [("c1", ⟨250, 1, [0, 1, 0]⟩)] 1 rfl rfl
    ("c1", ⟨250, 1, [0, 1, 0]⟩) (by simp)

/-- C5: whenever `worker_count_and_print` completes, the value written to
the library-size file equals the sum of the per-contig counts carried by
the emitted summaries (each record contributes to exactly one contig). -/
theorem library_size_eq_sum_counts (bw : Int) (threads : Nat) (index : ContigIndex)
    (items : List (Option String)) (binq : List (Option Summary)) (lib : Nat)
    (h : worker_count_and_print bw threads index items = .ok binq lib) :
    ((binq.filterMap id).map Summary.total_count).sum = lib := by
  unfold worker_count_and_print at h
  split at h
  · exact WorkerOut.noConfusion h
  next st0 hinit =>
    split at h
    · exact WorkerOut.noConfusion h
    · exact WorkerOut.noConfusion h
    next st t hloop =>
      injection h with h1 h2
      subst h2
      rw [← h1, filterMap_id_sentinels]
      have hs := countLoop_done_sum bw items st0 0 st t hloop
      have hz := initAggState_sumCounts bw index st0 hinit
      have hmap : (summariesOf st).map Summary.total_count
          = st.map (fun p => p.2.count) := by
        unfold summariesOf
        rw [List.map_map]
        rfl
      rw [hmap]
      unfold sumCounts at hs hz
      omega

/-- C5 witness: two records on one contig give library size 2 = 2. -/
theorem library_size_eq_sum_counts_witness :
    (([some (⟨"c1", 250, 2, [1, 1, 0]⟩ : Summary), none, none].filterMap id).map
      Summary.total_count).sum = 2 :=
  library_size_eq_sum_counts 100 2 [("c1", 250)]
    [some "q 0 0 0 0 c1 0 10", some "q 0 0 0 0 c1 0 110", none]
    [some ⟨"c1", 250, 2, [1, 1, 0]⟩, none, none] 2 rfl

/-- C6: for a positive bin width, the accumulator built for a contig of
nonnegative length has exactly `contig_length / bin_width + 1` bins
(floor division). -/
theorem accumulator_bin_count (bw : Int) (index : ContigIndex) (st0 : AggState)
    (k : String) (a : Accum)
    (h0 : initAggState bw index = .ok st0) (hk : alookup k st0 = some a)
    (hbw : 0 < bw) (hlen : 0 ≤ a.length) :
    a.bins.length = a.length.toNat / bw.toNat + 1 := by
  obtain ⟨len, hidx, ha⟩ := initAggState_alookup bw index st0 k a h0 hk
  subst ha
  simp only [List.length_replicate]
  have hlen2 : 0 ≤ len := by simpa using hlen
  obtain ⟨m, rfl⟩ := Int.eq_ofNat_of_zero_le hlen2
  obtain ⟨n, rfl⟩ := Int.eq_ofNat_of_zero_le (le_of_lt hbw)
  have htdiv : ((m : ℤ)).tdiv ((n : ℤ)) = ((m / n : ℕ) : ℤ) := rfl
  rw [htdiv, Int.toNat_natCast, Int.toNat_natCast]
  generalize (m / n : ℕ) = q
  omega

/-- C6 witness: length 250 with bin width 100 gives exactly 3 bins. -/
theorem accumulator_bin_count_witness :
    (Accum.mk 250 0 [0, 0, 0]).bins.length = 250 / 100 + 1 :=
  accumulator_bin_count 100 [("c1", 250)] [("c1", ⟨250, 0, [0, 0, 0]⟩)] "c1"
    ⟨250, 0, [0, 0, 0]⟩ rfl rfl (by decide) (by decide)

/-- C7 counterexample: with the nonpositive bin width −100 the program
does not fail at startup — it builds a 1-bin accumulator for a contig of
length 50, processes a record at position 10 normally, and completes with
count 1 and library size 1. -/
theorem no_bin_width_validation :
    ((-100 : Int) ≤ 0) ∧
    worker_count_and_print (-100) 1 [("c", 50)] [some "q 0 0 0 0 c 0 10", none]
      = .ok [some ⟨"c", 50, 1, [1]⟩, none] 1 :=
  ⟨by decide, rfl⟩

/-- C7 amended: the script performs no configuration validation.  A zero
bin width raises `ZeroDivisionError` only once the first accumulator is
sized (so only when the index is nonempty); a negative bin width is
accepted and records may be processed normally; an empty contig index is
accepted (an empty `.fai` yields it) and an empty stream then completes,
writing library size 0. -/
theorem config_error_behaviour :
    (∀ (k : String) (len : Int) (rest : ContigIndex),
      initAggState 0 ((k, len) :: rest) = .error .zeroDivisionError) ∧
    worker_count_and_print 100 1 [] [none] = .ok [none] 0 ∧
    contig_lens_from_fai [] = .ok [] := by
  refine ⟨?_, rfl, rfl⟩
  intro k len rest
  rfl

/-- C8 counterexample: the archive writer is not one continuous
compressed stream: 101 queued records produce two independent frames (a
full batch of 100 and the flushed partial batch), not the single frame a
state-carrying streaming codec would produce. -/
theorem archive_one_frame_per_batch :
    (worker_paf_writer ((List.replicate 101 "x\n").map some ++ [none])).map List.length
      = some 2 ∧
    (streaming_archive (List.replicate 101 "x\n")).length = 1 ∧
    worker_paf_writer ((List.replicate 101 "x\n").map some ++ [none])
      ≠ some (streaming_archive (List.replicate 101 "x\n")) := by
  have hmap : (worker_paf_writer ((List.replicate 101 "x\n").map some ++ [none])).map
      List.length = some 2 := by decide
  refine ⟨hmap, by decide, ?_⟩
  intro hcontra
  rw [hcontra] at hmap
  simp [streaming_archive] at hmap

/-- C8 amended: the writer buffers records into fixed batches of the
default 100, compresses each batch independently with a one-shot
`compress` call (one self-contained zstd frame per batch, no state
carried between batches), flushes the final partial batch at the
sentinel, and closes the file. -/
theorem archive_batches (lines : List String) :
    worker_paf_writer (lines.map some ++ [none])
      = some ((chunksOf 100 lines).map (fun b => zstd_compress_frame (joinAll b))) := by
  unfold worker_paf_writer
  have h := pafLoop_chunks 100 (by omega) lines [] [] (by simp)
  simpa using h

/-- C9: the computed hitrate equals the fraction of bins with a positive
count; it lies in `[0, 1]` and equals 1 exactly when every bin holds at
least one record. -/
theorem hitrate_correct (bins : List Nat) (h : bins ≠ []) :
    ctg_hitrate bins
        = (bins.countP (fun x => decide (0 < x)) : ℚ) / (bins.length : ℚ) ∧
    0 ≤ ctg_hitrate bins ∧ ctg_hitrate bins ≤ 1 ∧
    (ctg_hitrate bins = 1 ↔ ∀ x ∈ bins, 0 < x) := by
  have hn : 0 < bins.length := List.length_pos.mpr h
  have hc := countP_pos_add_count_zero bins
  have hq : ((bins.length : ℚ) - (bins.count 0 : ℚ))
      = (bins.countP (fun x => decide (0 < x)) : ℚ) := by
    have h2 : (bins.countP (fun x => decide (0 < x)) : ℚ) + (bins.count 0 : ℚ)
        = (bins.length : ℚ) := by exact_mod_cast hc
    linarith
  have hrev : ctg_hitrate bins
      = (bins.countP (fun x => decide (0 < x)) : ℚ) / (bins.length : ℚ) := by
    unfold ctg_hitrate
    rw [hq]
  have hnq : (0 : ℚ) < (bins.length : ℚ) := by exact_mod_cast hn
  refine ⟨hrev, ?_, ?_, ?_⟩
  · rw [hrev]
    positivity
  · rw [hrev, div_le_one hnq]
    exact_mod_cast List.countP_le_length _
  · rw [hrev, div_eq_one_iff_eq (ne_of_gt hnq)]
    constructor
    · intro h1
      have h2 : bins.countP (fun x => decide (0 < x)) = bins.length := by exact_mod_cast h1
      intro x hx
      simpa using List.countP_eq_length.mp h2 x hx
    · intro hall
      have h2 : bins.countP (fun x => decide (0 < x)) = bins.length :=
        List.countP_eq_length.mpr (fun x hx => by simpa using hall x hx)
      exact_mod_cast h2

/-- C9 witness: bins `[1, 2]` have hitrate 1. -/
theorem hitrate_correct_witness : ctg_hitrate [1, 2] = 1 :=
  (hitrate_correct [1, 2] (by decide)).2.2.2.mpr (by decide)

/-- C10: the read loop breaks exactly on a non-string item (the `None`
sentinel, via the `AttributeError` of `.strip()`); a dequeued string is
never treated as end-of-stream, and a string with fewer than 8
whitespace-separated fields instead raises an uncaught exception in the
worker. -/
theorem loop_exit_conditions (bw : Int) (st : AggState) (t : Nat) :
    (loopStep bw none st t).isBroke = true ∧
    (∀ line : String, (loopStep bw (some line) st t).isBroke = false) ∧
    (∀ line : String, (pySplit line).length < 8 →
      (loopStep bw (some line) st t).isRaised = true) := by
  refine ⟨rfl, ?_, ?_⟩
  · intro line
    unfold loopStep
    cases hpr : processRecord bw st line <;> simp [hpr, StepOut.isBroke]
  · intro line hlen
    obtain ⟨e, he⟩ := processRecord_malformed bw st line (Or.inl hlen)
    unfold loopStep
    simp [he, StepOut.isRaised]

/-- C10 witness: a 3-field record raises instead of ending the stream. -/
theorem loop_exit_conditions_witness :
    (loopStep 100 (some "readA 0 0") [("c1", ⟨100, 0, [0, 0]⟩)] 0).isRaised = true :=
  (loop_exit_conditions 100 [("c1", ⟨100, 0, [0, 0]⟩)] 0).2.2 "readA 0 0" (by decide)

end Koverage
